import Mathlib

/-!
# Verification of the assistant-bot contact store (`assistant_bot_hw_8.py`)

Shallow embedding of the contact-management program: validated field values
(`Phone`, `Birthday`), contact records (`Record`), the insertion-ordered
store (`AddressBook`), the upcoming-birthday query, and the command layer.
Python exceptions are modelled with `Except`; mutating methods return the
updated object together with the `Except` outcome, so that a raised
exception preserves mutations already performed (Python semantics).

Strings are modelled at the `List Char` level (ASCII; the Unicode
leniencies of Python's `str.isdigit` and `re`'s `\d` are out of scope).
-/

/-! ## Calendar arithmetic (model of Python `datetime.date`) -/

/-- Leap-year rule of the proleptic Gregorian calendar, as in Python's
`datetime`: divisible by 4 and (not by 100 or by 400). -/
def isLeap (y : Nat) : Bool :=
  y % 4 == 0 && (!(y % 100 == 0) || y % 400 == 0)

/-- Number of days in month `m` of year `y` (months numbered 1..12). -/
def daysInMonth (y m : Nat) : Nat :=
  if m == 2 then (if isLeap y then 29 else 28)
  else if m == 4 || m == 6 || m == 9 || m == 11 then 30
  else 31

/-- A calendar date, as Python's `datetime.date` triple. -/
structure Date where
  year : Nat
  month : Nat
  day : Nat
deriving DecidableEq, Repr

/-- Validity check performed by the `datetime.date` constructor:
year in 1..9999, month in 1..12, day in 1..days-in-month. -/
def Date.isValid (d : Date) : Bool :=
  1 ≤ d.year && d.year ≤ 9999 && 1 ≤ d.month && d.month ≤ 12 &&
  1 ≤ d.day && d.day ≤ daysInMonth d.year d.month

/-- Days of months 1..m-1 of year `y` summed up. -/
def daysBeforeMonth (y m : Nat) : Nat :=
  ((List.range (m - 1)).map (fun i => daysInMonth y (i + 1))).sum

/-- Rata-die day number of a date: day 1 is 0001-01-01 of the proleptic
Gregorian calendar (same day numbering as `datetime.date.toordinal`). -/
def rataDie (d : Date) : Nat :=
  365 * (d.year - 1) + (d.year - 1) / 4 + (d.year - 1) / 400 - (d.year - 1) / 100 +
    daysBeforeMonth d.year d.month + d.day

/-- Day of week with Monday = 0 .. Sunday = 6, as Python's
`date.weekday()` (0001-01-01 is a Monday). -/
def weekday (d : Date) : Nat :=
  (rataDie d + 6) % 7

/-- Lexicographic date comparison, as Python's `date.__lt__`. -/
def dateLt (a b : Date) : Bool :=
  a.year < b.year ||
  (a.year == b.year && (a.month < b.month || (a.month == b.month && a.day < b.day)))

/-- The day after `d` (valid for valid dates); models adding one
`timedelta(days=1)`. -/
def nextDay (d : Date) : Date :=
  if d.day < daysInMonth d.year d.month then ⟨d.year, d.month, d.day + 1⟩
  else if d.month < 12 then ⟨d.year, d.month + 1, 1⟩
  else ⟨d.year + 1, 1, 1⟩

/-- `d + timedelta(days=n)` for a valid date `d`. -/
def addDays : Date → Nat → Date
  | d, 0 => d
  | d, n + 1 => addDays (nextDay d) n

/-- Model of Python's `date.replace(year=y)`: rebuilds the date with the
new year and re-runs the constructor validation, raising `ValueError`
(here: `.error`) when the result is not a real calendar date
(e.g. Feb 29 in a non-leap year). -/
def replaceYear (d : Date) (y : Nat) : Except String Date :=
  if (Date.mk y d.month d.day).isValid then .ok ⟨y, d.month, d.day⟩
  else .error "day is out of range for month"

/-! ## Parsing `DD.MM.YYYY` (model of `datetime.strptime(value, "%d.%m.%Y")`)

CPython's `_strptime` compiles the format to a regex: `%d` matches one or
two digits with value 1..31, `%m` one or two digits with value 1..12,
`%Y` exactly four digits, the dots are literal, the whole string must be
consumed, and the matched numbers must then form a real `datetime.date`.
Because every field is a maximal run of digits delimited by the literal
dots, this is equivalent to: split the string on dots into exactly three
all-digit fields of lengths 1-2, 1-2 and 4, whose values form a valid
date. (The regex value bounds on day and month are subsumed by the
`date` constructor check.) -/

/-- Split a character list on `.` (like `str.split(".")`): always returns
at least one part, parts contain no dot, and interleaving the parts with
dots recovers the input. -/
def splitDots : List Char → List (List Char)
  | [] => [[]]
  | c :: rest =>
    if c = '.' then [] :: splitDots rest
    else
      match splitDots rest with
      | [] => [[c]]
      | p :: ps => (c :: p) :: ps

/-- Numeric value of a digit string (most significant first). -/
def natOfDigits : List Char → Nat
  | [] => 0
  | c :: rest => (c.toNat - 48) * 10 ^ rest.length + natOfDigits rest

/-- Model of `datetime.strptime(s, "%d.%m.%Y")` followed by extraction of
the date: `some` of the parsed date on success, `none` where Python
raises `ValueError`. -/
def strptimeDMY (s : String) : Option Date :=
  match splitDots s.data with
  | [ds, ms, ys] =>
    if !ds.isEmpty && ds.length ≤ 2 && ds.all Char.isDigit &&
       (!ms.isEmpty && ms.length ≤ 2 && ms.all Char.isDigit) &&
       (ys.length == 4 && ys.all Char.isDigit) then
      if (Date.mk (natOfDigits ys) (natOfDigits ms) (natOfDigits ds)).isValid then
        some ⟨natOfDigits ys, natOfDigits ms, natOfDigits ds⟩
      else none
    else none
  | _ => none

/-- The character for digit `n` (`n ≤ 9`). -/
def digitChar (n : Nat) : Char :=
  Char.ofNat (48 + n)

/-- Two-digit zero-padded rendering (`%d`, `%m`). -/
def pad2 (n : Nat) : List Char :=
  [digitChar (n / 10 % 10), digitChar (n % 10)]

/-- Four-digit zero-padded rendering (`%Y`). -/
def pad4 (n : Nat) : List Char :=
  [digitChar (n / 1000 % 10), digitChar (n / 100 % 10),
   digitChar (n / 10 % 10), digitChar (n % 10)]

/-- Model of `date.strftime("%d.%m.%Y")`. -/
def strftimeDMY (d : Date) : String :=
  ⟨pad2 d.day ++ '.' :: pad2 d.month ++ '.' :: pad4 d.year⟩

/-! ## Field value types (`Phone`, `Birthday`; `Name` is an unvalidated string) -/

/-- Model of Python's `str.isdigit()` restricted to ASCII: non-empty and
all decimal digits. -/
def pyIsDigit (s : String) : Bool :=
  !s.data.isEmpty && s.data.all Char.isDigit

/-- A validated phone number (`Phone`), storing the raw string `value`. -/
structure Phone where
  value : String
deriving DecidableEq, Repr

/-- `Phone.__init__`: raises `ValueError` unless `value.isdigit()` and
`len(value) == 10`. -/
def Phone.init (value : String) : Except String Phone :=
  if !pyIsDigit value || value.data.length != 10 then
    .error "Phone number must contain exactly 10 digits."
  else .ok ⟨value⟩

/-- `Field.__str__` on a phone: the stored raw string. -/
def Phone.render (p : Phone) : String :=
  p.value

/-- A validated birthday (`Birthday`), storing the raw string `value`. -/
structure Birthday where
  value : String
deriving DecidableEq, Repr

/-- `Birthday.__init__`: raises `ValueError` unless the string parses
under `strptime("%d.%m.%Y")`; stores the raw string unchanged. -/
def Birthday.init (value : String) : Except String Birthday :=
  match strptimeDMY value with
  | some _ => .ok ⟨value⟩
  | none => .error "Invalid date format. Use DD.MM.YYYY"

/-- `Field.__str__` on a birthday: the stored raw string. -/
def Birthday.render (b : Birthday) : String :=
  b.value

/-! ## `Record`

A Python `Record` holds a `Name` (plain string wrapper, no validation),
a list of `Phone` objects and an optional `Birthday`.  Each mutating
method returns the record after the call together with the `Except`
outcome: when an exception is raised the mutations already performed are
kept, matching Python's in-place mutation semantics. -/

structure Record where
  name : String
  phones : List Phone
  birthday : Option Birthday
deriving DecidableEq, Repr

/-- `Record.find_phone`: first phone whose `value` equals `phone`. -/
def Record.find_phone (r : Record) (phone : String) : Option Phone :=
  r.phones.find? (fun p => p.value == phone)

/-- Drop the first list element whose `value` equals `phone`
(`list.remove` applied to the object returned by `find_phone`: that
object is the first value-match, and `Record.add_phone` always appends a
fresh object, so identity-based removal removes exactly that position). -/
def removeFirstPhone : List Phone → String → List Phone
  | [], _ => []
  | p :: rest, phone => if p.value == phone then rest else p :: removeFirstPhone rest phone

/-- `Record.add_phone`: validates (may raise) and appends. -/
def Record.add_phone (r : Record) (phone : String) : Record × Except String Unit :=
  match Phone.init phone with
  | .ok p => ({ r with phones := r.phones ++ [p] }, .ok ())
  | .error e => (r, .error e)

/-- `Record.remove_phone`: removes the first phone whose value equals
`phone`; raises `ValueError` if none match. -/
def Record.remove_phone (r : Record) (phone : String) : Record × Except String Unit :=
  match r.find_phone phone with
  | some _ => ({ r with phones := removeFirstPhone r.phones phone }, .ok ())
  | none => (r, .error "Phone number not found.")

/-- `Record.edit_phone`: if `old_phone` is found, first `remove_phone`
then `add_phone` (the source's order: the removal happens before the new
number is validated); otherwise raises `ValueError`. -/
def Record.edit_phone (r : Record) (old_phone new_phone : String) : Record × Except String Unit :=
  match r.find_phone old_phone with
  | some _ =>
    match r.remove_phone old_phone with
    | (r1, .ok _) => r1.add_phone new_phone
    | (r1, .error e) => (r1, .error e)
  | none => (r, .error "Old phone number not found.")

/-- `Record.add_birthday`: validates (may raise) and overwrites. -/
def Record.add_birthday (r : Record) (bday : String) : Record × Except String Unit :=
  match Birthday.init bday with
  | .ok b => ({ r with birthday := some b }, .ok ())
  | .error e => (r, .error e)

/-- `Record.show_birthday`: the stored raw birthday string, or the
sentinel when no birthday is set. -/
def Record.show_birthday (r : Record) : String :=
  match r.birthday with
  | some b => b.value
  | none => "No birthday set"

/-- `Record.__str__`. -/
def Record.render (r : Record) : String :=
  "Contact name: " ++ r.name ++ ", phones: " ++
    String.intercalate "; " (r.phones.map Phone.render) ++
    (match r.birthday with
     | some _ => ", birthday: " ++ r.show_birthday
     | none => "")

/-! ## `AddressBook`

Python's `UserDict` is an insertion-ordered map; we model `self.data` as
an association list with unique keys: assignment to an existing key
replaces in place, to a fresh key appends. -/

structure AddressBook where
  data : List (String × Record)
deriving DecidableEq, Repr

/-- `self.data[k] = v` on an insertion-ordered dict. -/
def dictSet : List (String × Record) → String → Record → List (String × Record)
  | [], k, v => [(k, v)]
  | (k', v') :: rest, k, v =>
    if k' == k then (k, v) :: rest else (k', v') :: dictSet rest k v

/-- `del self.data[k]` (first, and with unique keys only, occurrence). -/
def delKey : List (String × Record) → String → List (String × Record)
  | [], _ => []
  | (k', v') :: rest, k => if k' == k then rest else (k', v') :: delKey rest k

/-- `AddressBook.add_record`: stores the record under its embedded name. -/
def AddressBook.add_record (b : AddressBook) (r : Record) : AddressBook :=
  ⟨dictSet b.data r.name r⟩

/-- `AddressBook.find`: `self.data.get(name)`. -/
def AddressBook.find (b : AddressBook) (name : String) : Option Record :=
  (b.data.find? (fun kv => kv.1 == name)).map (fun kv => kv.2)

/-- `AddressBook.delete`: removes the key if present, no-op otherwise. -/
def AddressBook.delete (b : AddressBook) (name : String) : AddressBook :=
  ⟨delKey b.data name⟩

/-- This-year occurrence of a birthday: `bday.replace(year=today.year)`,
rolled to next year when strictly before `today`.  Either `replace` can
raise (Feb 29 outside a leap year) and the error propagates. -/
def occurrence (bday today : Date) : Except String Date :=
  match replaceYear bday today.year with
  | .error e => .error e
  | .ok t =>
    if dateLt t today then replaceYear bday (today.year + 1) else .ok t

/-- Weekend adjustment of a reported occurrence: Saturday/Sunday are
rolled forward by `7 - weekday` days to the next Monday. -/
def weekendAdjust (d : Date) : Date :=
  if 5 ≤ weekday d then addDays d (7 - weekday d) else d

/-- Loop body of `get_upcoming_birthdays` for one record: `.ok none`
when the record is skipped or out of window, `.ok (some (name, date))`
when reported, `.error` when the `replace` call raises. -/
def processRecord (today : Date) (r : Record) : Except String (Option (String × String)) :=
  match r.birthday with
  | none => .ok none
  | some b =>
    match strptimeDMY b.value with
    | none => .ok none
    | some bday =>
      match occurrence bday today with
      | .error e => .error e
      | .ok occ =>
        if 0 ≤ (rataDie occ : Int) - (rataDie today : Int) ∧
           (rataDie occ : Int) - (rataDie today : Int) ≤ 7 then
          .ok (some (r.name, strftimeDMY (weekendAdjust occ)))
        else .ok none

/-- Iteration of `get_upcoming_birthdays` over `self.data.values()` in
insertion order, appending reported entries; an exception raised at any
record aborts the whole call. -/
def upcomingAux (today : Date) : List (String × Record) → Except String (List (String × String))
  | [] => .ok []
  | (_, r) :: rest =>
    match processRecord today r with
    | .error e => .error e
    | .ok none => upcomingAux today rest
    | .ok (some x) =>
      match upcomingAux today rest with
      | .error e => .error e
      | .ok l => .ok (x :: l)

/-- `AddressBook.get_upcoming_birthdays`, with the ambient
`datetime.today()` passed explicitly. -/
def AddressBook.get_upcoming_birthdays (b : AddressBook) (today : Date) :
    Except String (List (String × String)) :=
  upcomingAux today b.data

/-! ## Command layer

Each `@input_error`-decorated command returns the reply text and the
store afterwards; a caught `ValueError`/`IndexError` becomes the text
`"Error: " ++ message`.  Records mutated through a found reference are
written back at the key they were found under. -/

/-- `add_contact`: unpacks `name, phone = args` (raises `ValueError` on
a wrong count), fetches or creates-and-inserts the record, then
`add_phone` — so an invalid phone still leaves a freshly created empty
record in the book. -/
def add_contact (args : List String) (book : AddressBook) : String × AddressBook :=
  match args with
  | [name, phone] =>
    match book.find name with
    | some r =>
      match r.add_phone phone with
      | (r2, .ok _) => ("Contact updated: " ++ r2.render, ⟨dictSet book.data name r2⟩)
      | (_, .error e) => ("Error: " ++ e, book)
    | none =>
      match (Record.mk name [] none).add_phone phone with
      | (r2, .ok _) =>
        ("Contact updated: " ++ r2.render, (book.add_record (Record.mk name [] none)).add_record r2)
      | (_, .error e) => ("Error: " ++ e, book.add_record (Record.mk name [] none))
  | _ => ("Error: not enough values to unpack", book)

/-- `change_contact`: unpacks three arguments, reports a missing
contact, otherwise `edit_phone` (whose partial mutation survives a
raised `ValueError`). -/
def change_contact (args : List String) (book : AddressBook) : String × AddressBook :=
  match args with
  | [name, old_phone, new_phone] =>
    match book.find name with
    | none => ("No contact with name '" ++ name ++ "' found.", book)
    | some r =>
      match r.edit_phone old_phone new_phone with
      | (r2, .ok _) => ("Phone updated for " ++ name ++ ".", ⟨dictSet book.data name r2⟩)
      | (r2, .error e) => ("Error: " ++ e, ⟨dictSet book.data name r2⟩)
  | _ => ("Error: not enough values to unpack", book)

/-- `add_birthday` (command): unpacks two arguments, reports a missing
contact, otherwise `Record.add_birthday`. -/
def add_birthday (args : List String) (book : AddressBook) : String × AddressBook :=
  match args with
  | [name, bday] =>
    match book.find name with
    | none => ("No contact with name '" ++ name ++ "' found.", book)
    | some r =>
      match r.add_birthday bday with
      | (r2, .ok _) => ("Birthday added for " ++ name ++ ".", ⟨dictSet book.data name r2⟩)
      | (r2, .error e) => ("Error: " ++ e, ⟨dictSet book.data name r2⟩)
  | _ => ("Error: not enough values to unpack", book)

/-- `show_phone` (read-only). -/
def show_phone (args : List String) (book : AddressBook) : String :=
  match args with
  | name :: _ =>
    match book.find name with
    | none => "No contact with name '" ++ name ++ "' found."
    | some r => name ++ "'s phones: " ++ String.intercalate "; " (r.phones.map Phone.value)
  | [] => "Error: list index out of range"

/-- `show_birthday` (read-only). -/
def show_birthday (args : List String) (book : AddressBook) : String :=
  match args with
  | name :: _ =>
    match book.find name with
    | none => "No contact with name '" ++ name ++ "' found."
    | some r => name ++ "'s birthday is " ++ r.show_birthday ++ "."
  | [] => "Error: list index out of range"

/-- `birthdays` (read-only; the decorator turns the escaping
`ValueError` of `get_upcoming_birthdays` into an error string). -/
def birthdays (book : AddressBook) (today : Date) : String :=
  match book.get_upcoming_birthdays today with
  | .error e => "Error: " ++ e
  | .ok [] => "No upcoming birthdays this week."
  | .ok l => String.intercalate "\n" (l.map (fun nd => nd.1 ++ ": " ++ nd.2))

/-- `show_all` (read-only). -/
def show_all (book : AddressBook) : String :=
  if book.data.isEmpty then "Address book is empty."
  else String.intercalate "\n" (book.data.map (fun kv => kv.2.render))

/-! ## Helper lemmas: `splitDots` and digit strings -/

/-- Tail part of rejoining split parts with dots. -/
def joinTail : List (List Char) → List Char
  | [] => []
  | q :: qs => '.' :: (q ++ joinTail qs)

/-- Rejoin split parts with dots. -/
def joinDots : List (List Char) → List Char
  | [] => []
  | p :: ps => p ++ joinTail ps

theorem splitDots_dot (rest : List Char) : splitDots ('.' :: rest) = [] :: splitDots rest := by
  simp [splitDots]

theorem splitDots_nondot (c : Char) (rest p : List Char) (ps : List (List Char))
    (hc : c ≠ '.') (h : splitDots rest = p :: ps) :
    splitDots (c :: rest) = (c :: p) :: ps := by
  simp only [splitDots, if_neg hc, h]

theorem splitDots_ne_nil (l : List Char) : splitDots l ≠ [] := by
  induction l with
  | nil => simp [splitDots]
  | cons c rest ih =>
    by_cases hc : c = '.'
    · simp [splitDots, hc]
    · simp only [splitDots, if_neg hc]
      cases h : splitDots rest with
      | nil => simp
      | cons p ps => simp

theorem joinDots_splitDots (l : List Char) : joinDots (splitDots l) = l := by
  induction l with
  | nil => simp [splitDots, joinDots, joinTail]
  | cons c rest ih =>
    cases h : splitDots rest with
    | nil => exact absurd h (splitDots_ne_nil rest)
    | cons p ps =>
      rw [h] at ih
      simp only [joinDots] at ih
      by_cases hc : c = '.'
      · subst hc
        rw [splitDots_dot, h]
        simp only [joinDots, joinTail, List.nil_append]
        rw [ih]
      · rw [splitDots_nondot c rest p ps hc h]
        simp only [joinDots, List.cons_append]
        rw [ih]

theorem splitDots_parts_nodot (l : List Char) :
    ∀ p ∈ splitDots l, ∀ c ∈ p, c ≠ '.' := by
  induction l with
  | nil => simp [splitDots]
  | cons c rest ih =>
    cases h : splitDots rest with
    | nil => exact absurd h (splitDots_ne_nil rest)
    | cons p ps =>
      rw [h] at ih
      by_cases hc : c = '.'
      · subst hc
        rw [splitDots_dot, h]
        intro q hq
        rcases List.mem_cons.mp hq with h2 | h2
        · subst h2; simp
        · exact ih q h2
      · rw [splitDots_nondot c rest p ps hc h]
        intro q hq
        rcases List.mem_cons.mp hq with h2 | h2
        · subst h2
          intro x hx
          rcases List.mem_cons.mp hx with h3 | h3
          · subst h3; exact hc
          · exact ih p (List.mem_cons_self _ _) x h3
        · exact ih q (List.mem_cons_of_mem _ h2)

theorem splitDots_append_nodot (a l : List Char)
    (ha : ∀ c ∈ a, c ≠ '.') (h : List Char) (t : List (List Char))
    (ht : splitDots l = h :: t) :
    splitDots (a ++ l) = (a ++ h) :: t := by
  induction a with
  | nil => simpa using ht
  | cons c a' ih =>
    have hc : c ≠ '.' := ha c (List.mem_cons_self _ _)
    have ih2 := ih (fun x hx => ha x (List.mem_cons_of_mem _ hx))
    rw [List.cons_append, splitDots_nondot c (a' ++ l) (a' ++ h) t hc ih2]
    simp

theorem splitDots_three (a b c : List Char)
    (ha : ∀ x ∈ a, x ≠ '.') (hb : ∀ x ∈ b, x ≠ '.') (hc : ∀ x ∈ c, x ≠ '.') :
    splitDots (a ++ '.' :: (b ++ '.' :: c)) = [a, b, c] := by
  have h3 : splitDots c = c :: [] := by
    have := splitDots_append_nodot c [] hc [] [] rfl
    simpa using this
  have h2 : splitDots ('.' :: c) = [] :: c :: [] := by
    rw [splitDots_dot, h3]
  have h1 : splitDots (b ++ '.' :: c) = b :: c :: [] := by
    have := splitDots_append_nodot b ('.' :: c) hb [] (c :: []) h2
    simpa using this
  have h0 : splitDots ('.' :: (b ++ '.' :: c)) = [] :: b :: c :: [] := by
    rw [splitDots_dot, h1]
  have := splitDots_append_nodot a ('.' :: (b ++ '.' :: c)) ha [] (b :: c :: []) h0
  simpa using this

theorem isDigit_ne_dot (c : Char) (h : c.isDigit = true) : c ≠ '.' := by
  intro hc
  subst hc
  simp [Char.isDigit] at h

theorem isDigit_toNat_bounds (c : Char) (h : c.isDigit = true) :
    48 ≤ c.toNat ∧ c.toNat ≤ 57 := by
  unfold Char.isDigit at h
  simp [Bool.and_eq_true] at h
  exact h

theorem natOfDigits_lt (l : List Char) (h : ∀ c ∈ l, c.isDigit = true) :
    natOfDigits l < 10 ^ l.length := by
  induction l with
  | nil => simp [natOfDigits]
  | cons c rest ih =>
    have hb := isDigit_toNat_bounds c (h c (List.mem_cons_self _ _))
    have h9 : c.toNat - 48 ≤ 9 := by omega
    have ih2 : natOfDigits rest < 10 ^ rest.length :=
      ih (fun x hx => h x (List.mem_cons_of_mem _ hx))
    simp only [natOfDigits, List.length_cons]
    calc (c.toNat - 48) * 10 ^ rest.length + natOfDigits rest
        ≤ 9 * 10 ^ rest.length + natOfDigits rest :=
          Nat.add_le_add_right (Nat.mul_le_mul_right _ h9) _
      _ < 9 * 10 ^ rest.length + 10 ^ rest.length := Nat.add_lt_add_left ih2 _
      _ = 10 ^ (rest.length + 1) := by ring

/-! ## Claim C4: phone validation -/

/-- Claim C4: `PhoneNumber(raw)` succeeds iff `raw` has length exactly 10
and every character is a decimal digit; in particular `"12345"` and
`"123456789a"` both fail. -/
theorem phone_init_ten_digits :
    (∀ raw : String,
      (Phone.init raw).isOk = (raw.length == 10 && raw.data.all Char.isDigit)) ∧
    (Phone.init "12345").isOk = false ∧ (Phone.init "123456789a").isOk = false := by
  refine ⟨fun raw => ?_, by decide, by decide⟩
  have hlen : raw.data.length = raw.length := rfl
  simp only [Phone.init, pyIsDigit]
  rcases Bool.eq_false_or_eq_true (raw.data.all Char.isDigit) with hA | hA
  · rcases Bool.eq_false_or_eq_true (raw.length == 10) with hL | hL
    · have hL2 : raw.length = 10 := by simpa using hL
      have hne : raw.data ≠ [] := by
        intro hnil
        rw [hnil] at hlen
        simp at hlen
        omega
      have hEm := List.isEmpty_eq_false.mpr hne
      simp [Except.isOk, Except.toBool, hA, hL2, hEm, bne]
    · have hL2 : ¬ raw.length = 10 := by simpa using hL
      simp [Except.isOk, Except.toBool, hA, hL2, bne]
  · have hne : raw.data ≠ [] := by
      intro hnil
      rw [hnil] at hA
      exact absurd hA (by decide)
    have hEm := List.isEmpty_eq_false.mpr hne
    simp [Except.isOk, Except.toBool, hA, hEm, bne]

/-! ## Claim C8: display round-trip -/

/-- Claim C8: whenever construction succeeds, the constructed
`Phone`/`Birthday` renders back to exactly the original raw string. -/
theorem field_render_roundtrip (raw : String) :
    (∀ p : Phone, Phone.init raw = .ok p → p.render = raw) ∧
    (∀ b : Birthday, Birthday.init raw = .ok b → b.render = raw) := by
  constructor
  · intro p h
    simp only [Phone.init] at h
    split at h
    · exact absurd h (by simp)
    · cases h
      rfl
  · intro b h
    simp only [Birthday.init] at h
    split at h
    · cases h
      rfl
    · exact absurd h (by simp)

/-- Witness for C8 at concrete inputs. -/
theorem field_render_roundtrip_witness :
    Phone.render ⟨"0123456789"⟩ = "0123456789" ∧
    Birthday.render ⟨"29.02.2024"⟩ = "29.02.2024" :=
  ⟨(field_render_roundtrip "0123456789").1 ⟨"0123456789"⟩ (by rfl),
   (field_render_roundtrip "29.02.2024").2 ⟨"29.02.2024"⟩ (by rfl)⟩

/-! ## Claim C10: record rendering -/

/-- Claim C10: `Record.__str__` is the contact-name/phones line, with the
`", birthday: "` suffix exactly when a birthday is set; when none is set
the output is just the base line (so the `"No birthday set"` sentinel is
not emitted by rendering). -/
theorem record_render_format (r : Record) :
    (r.birthday = none →
      r.render = "Contact name: " ++ r.name ++ ", phones: " ++
        String.intercalate "; " (r.phones.map Phone.render)) ∧
    (∀ b : Birthday, r.birthday = some b →
      r.render = "Contact name: " ++ r.name ++ ", phones: " ++
        String.intercalate "; " (r.phones.map Phone.render) ++ ", birthday: " ++ b.value) := by
  constructor
  · intro h
    simp [Record.render, h]
  · intro b h
    simp [Record.render, Record.show_birthday, h, String.append_assoc]

/-- Witness for C10 at concrete records. -/
theorem record_render_format_witness :
    Record.render ⟨"Kate", [⟨"0123456789"⟩], none⟩ =
      "Contact name: " ++ "Kate" ++ ", phones: " ++
        String.intercalate "; " ([Phone.mk "0123456789"].map Phone.render) ∧
    Record.render ⟨"Kate", [⟨"0123456789"⟩], some ⟨"15.06.1990"⟩⟩ =
      "Contact name: " ++ "Kate" ++ ", phones: " ++
        String.intercalate "; " ([Phone.mk "0123456789"].map Phone.render) ++
        ", birthday: " ++ "15.06.1990" :=
  ⟨(record_render_format ⟨"Kate", [⟨"0123456789"⟩], none⟩).1 rfl,
   (record_render_format ⟨"Kate", [⟨"0123456789"⟩], some ⟨"15.06.1990"⟩⟩).2 ⟨"15.06.1990"⟩ rfl⟩

/-! ## Claim C1: `edit_phone` with an invalid new number loses the old one -/

/-- Claim C1 (code bug): the source's `edit_phone` removes the old phone
*before* validating the new one, so when the new number is invalid the
record is left changed — the old phone is gone — while `InvalidFormat`
is signaled.  Evaluated at the failing input: a record holding
`"1234567890"`, edited to the invalid `"12"`. -/
theorem edit_phone_invalid_new_drops_old :
    (Record.mk "Bob" [⟨"1234567890"⟩] none).edit_phone "1234567890" "12" =
      (Record.mk "Bob" [] none, .error "Phone number must contain exactly 10 digits.") := by
  rfl

/-! ## Claim C6: February 29 birthday escapes the birthday query -/

/-- Claim C6: with a stored (valid) `"29.02.2024"` birthday and a
`today` in a non-leap year, `get_upcoming_birthdays` does not return a
list: the `replace(year=...)` call raises and the error escapes the
operation. -/
theorem upcoming_birthdays_feb29_error :
    (AddressBook.mk [("A", Record.mk "A" [] (some ⟨"29.02.2024"⟩))]).get_upcoming_birthdays
        ⟨2023, 6, 1⟩ =
      .error "day is out of range for month" := by
  rfl

/-! ## Claim C7: `remove_phone` removes the first exact match -/

theorem find_phone_decomp (ps : List Phone) (phone : String) (p : Phone)
    (h : ps.find? (fun q => q.value == phone) = some p) :
    p.value = phone ∧
    ∃ l1 l2, ps = l1 ++ p :: l2 ∧ (∀ q ∈ l1, q.value ≠ phone) ∧
      removeFirstPhone ps phone = l1 ++ l2 := by
  induction ps with
  | nil => simp at h
  | cons q rest ih =>
    rw [List.find?_cons] at h
    rcases Bool.eq_false_or_eq_true (q.value == phone) with hq | hq
    · rw [hq] at h
      simp only [Option.some.injEq] at h
      subst h
      refine ⟨by simpa using hq, [], rest, rfl, by simp, ?_⟩
      simp [removeFirstPhone, hq]
    · rw [hq] at h
      simp only at h
      obtain ⟨hv, l1, l2, hsplit, hl1, hrm⟩ := ih h
      refine ⟨hv, q :: l1, l2, by rw [hsplit]; rfl, ?_, ?_⟩
      · intro x hx
        rcases List.mem_cons.mp hx with h2 | h2
        · subst h2
          simpa using hq
        · exact hl1 x h2
      · simp [removeFirstPhone, hq, hrm]

/-- Claim C7: `removePhone(raw)` fails with `NotFound` leaving the record
unchanged when no phone matches, and otherwise removes exactly the first
phone whose value equals `raw`; on a record with two copies of
`"1111111111"` exactly one copy is left. -/
theorem remove_phone_first_match (r : Record) (phone : String) :
    (r.find_phone phone = none →
      r.remove_phone phone = (r, .error "Phone number not found.")) ∧
    (∀ p : Phone, r.find_phone phone = some p →
      p.value = phone ∧
      ∃ l1 l2, r.phones = l1 ++ p :: l2 ∧ (∀ q ∈ l1, q.value ≠ phone) ∧
        r.remove_phone phone = (⟨r.name, l1 ++ l2, r.birthday⟩, .ok ())) ∧
    ((Record.mk "X" [⟨"1111111111"⟩, ⟨"1111111111"⟩] none).remove_phone "1111111111" =
      (Record.mk "X" [⟨"1111111111"⟩] none, .ok ())) := by
  refine ⟨?_, ?_, by rfl⟩
  · intro h
    simp only [Record.remove_phone, h]
  · intro p h
    obtain ⟨hv, l1, l2, hsplit, hl1, hrm⟩ := find_phone_decomp r.phones phone p h
    refine ⟨hv, l1, l2, hsplit, hl1, ?_⟩
    simp only [Record.remove_phone, h, hrm]

/-- Witness for C7: removing from a record with no phones fails. -/
theorem remove_phone_first_match_witness :
    (Record.mk "Yan" [] none).remove_phone "0123456789" =
      (Record.mk "Yan" [] none, .error "Phone number not found.") :=
  (remove_phone_first_match (Record.mk "Yan" [] none) "0123456789").1 rfl

/-! ## Claim C5: a failed `add` still creates the contact -/

theorem find_dictSet_fresh (d : List (String × Record)) (name : String) (v : Record)
    (h : d.find? (fun kv => kv.1 == name) = none) :
    (dictSet d name v).find? (fun kv => kv.1 == name) = some (name, v) := by
  induction d with
  | nil => simp [dictSet]
  | cons kv rest ih =>
    obtain ⟨k', v'⟩ := kv
    rw [List.find?_cons] at h
    rcases Bool.eq_false_or_eq_true (k' == name) with hk | hk
    · rw [hk] at h
      simp at h
    · rw [hk] at h
      simp only at h
      simp only [dictSet]
      rw [if_neg (by simp [hk])]
      rw [List.find?_cons]
      simp only [hk]
      exact ih h

/-- Claim C5: `add_contact` on an absent name with an invalid phone
returns an error string, yet afterwards the store contains a fresh
record under that name with an empty phone list. -/
theorem add_contact_invalid_phone_still_adds (book : AddressBook) (name phone : String)
    (habs : book.find name = none) (hbad : (Phone.init phone).isOk = false) :
    (add_contact [name, phone] book).1 =
      "Error: " ++ "Phone number must contain exactly 10 digits." ∧
    (add_contact [name, phone] book).2.find name = some (Record.mk name [] none) := by
  have hinit : Phone.init phone = .error "Phone number must contain exactly 10 digits." := by
    unfold Phone.init at hbad ⊢
    split
    · rfl
    · rename_i hcond
      rw [if_neg hcond] at hbad
      simp [Except.isOk, Except.toBool] at hbad
  have hd : book.data.find? (fun kv => kv.1 == name) = none := by
    unfold AddressBook.find at habs
    cases hf : book.data.find? (fun kv => kv.1 == name) with
    | none => rfl
    | some kv => rw [hf] at habs; simp at habs
  simp only [add_contact, habs, Record.add_phone, hinit]
  constructor
  · trivial
  · simp only [AddressBook.add_record, AddressBook.find]
    rw [find_dictSet_fresh book.data name (Record.mk name [] none) hd]
    rfl

/-- Witness for C5 on the empty book. -/
theorem add_contact_invalid_phone_still_adds_witness :
    (add_contact ["Alice", "123"] ⟨[]⟩).1 =
      "Error: " ++ "Phone number must contain exactly 10 digits." ∧
    (add_contact ["Alice", "123"] ⟨[]⟩).2.find "Alice" = some (Record.mk "Alice" [] none) :=
  add_contact_invalid_phone_still_adds ⟨[]⟩ "Alice" "123" (by rfl) (by rfl)

/-! ## Claim C9: every key maps to a record embedding that key as name -/

/-- The store invariant: each stored record's embedded name equals its key. -/
def bookWF (b : AddressBook) : Prop :=
  ∀ k r, (k, r) ∈ b.data → r.name = k

theorem mem_dictSet (d : List (String × Record)) (k : String) (v : Record)
    (k' : String) (r' : Record) (h : (k', r') ∈ dictSet d k v) :
    (k' = k ∧ r' = v) ∨ (k', r') ∈ d := by
  induction d with
  | nil =>
    simp [dictSet] at h
    exact Or.inl h
  | cons kv rest ih =>
    obtain ⟨a, b⟩ := kv
    simp only [dictSet] at h
    by_cases ha : (a == k) = true
    · rw [if_pos ha] at h
      rcases List.mem_cons.mp h with h2 | h2
      · simp only [Prod.mk.injEq] at h2
        exact Or.inl h2
      · exact Or.inr (List.mem_cons_of_mem _ h2)
    · rw [if_neg ha] at h
      rcases List.mem_cons.mp h with h2 | h2
      · exact Or.inr (by rw [h2]; exact List.mem_cons_self _ _)
      · rcases ih h2 with h3 | h3
        · exact Or.inl h3
        · exact Or.inr (List.mem_cons_of_mem _ h3)

theorem mem_delKey (d : List (String × Record)) (k : String)
    (x : String × Record) (h : x ∈ delKey d k) : x ∈ d := by
  induction d with
  | nil => simpa [delKey] using h
  | cons kv rest ih =>
    obtain ⟨a, b⟩ := kv
    simp only [delKey] at h
    by_cases ha : (a == k) = true
    · rw [if_pos ha] at h
      exact List.mem_cons_of_mem _ h
    · rw [if_neg ha] at h
      rcases List.mem_cons.mp h with h2 | h2
      · rw [h2]; exact List.mem_cons_self _ _
      · exact List.mem_cons_of_mem _ (ih h2)

theorem dictSet_WF (b : AddressBook) (k : String) (v : Record)
    (hwf : bookWF b) (hv : v.name = k) : bookWF ⟨dictSet b.data k v⟩ := by
  intro k' r' h
  rcases mem_dictSet b.data k v k' r' h with ⟨h1, h2⟩ | h2
  · rw [h1, h2]
    exact hv
  · exact hwf k' r' h2

theorem add_phone_fst_name (r : Record) (s : String) :
    (r.add_phone s).1.name = r.name := by
  unfold Record.add_phone
  cases Phone.init s <;> rfl

theorem remove_phone_fst_name (r : Record) (s : String) :
    (r.remove_phone s).1.name = r.name := by
  unfold Record.remove_phone
  cases r.find_phone s <;> rfl

theorem add_birthday_fst_name (r : Record) (s : String) :
    (r.add_birthday s).1.name = r.name := by
  unfold Record.add_birthday
  cases Birthday.init s <;> rfl

theorem edit_phone_fst_name (r : Record) (s t : String) :
    (r.edit_phone s t).1.name = r.name := by
  unfold Record.edit_phone
  cases r.find_phone s with
  | none => rfl
  | some p =>
    simp only
    cases hrm : r.remove_phone s with
    | mk r1 e1 =>
      have h1 : r1.name = r.name := by rw [← remove_phone_fst_name r s, hrm]
      cases e1 with
      | error e => simpa using h1
      | ok u =>
        simp only
        rw [add_phone_fst_name r1 t]
        exact h1

theorem find_WF_name (b : AddressBook) (hwf : bookWF b) (name : String) (r : Record)
    (h : b.find name = some r) : r.name = name := by
  unfold AddressBook.find at h
  cases hf : b.data.find? (fun kv => kv.1 == name) with
  | none => rw [hf] at h; simp at h
  | some kv =>
    rw [hf] at h
    simp only [Option.map_some', Option.some.injEq] at h
    have hk : kv.1 = name := by simpa using List.find?_some hf
    have hm : kv ∈ b.data := List.mem_of_find?_eq_some hf
    have h2 := hwf kv.1 kv.2 (Prod.mk.eta ▸ hm)
    rw [← h, h2, hk]

/-- Claim C9: the key-equals-embedded-name invariant holds after
`add_record` and `delete`, and after each store-mutating command
(`add_contact`, `change_contact`, `add_birthday`); the remaining store
and command operations (`find`, `get_upcoming_birthdays`, `show_phone`,
`show_birthday`, `birthdays`, `show_all`) do not modify the store. -/
theorem store_key_name_invariant (book : AddressBook) (r : Record) (nm : String)
    (args : List String) (hwf : bookWF book) :
    bookWF (book.add_record r) ∧ bookWF (book.delete nm) ∧
    bookWF (add_contact args book).2 ∧ bookWF (change_contact args book).2 ∧
    bookWF (add_birthday args book).2 := by
  refine ⟨dictSet_WF book r.name r hwf rfl, ?_, ?_, ?_, ?_⟩
  · intro k' r' h
    exact hwf k' r' (mem_delKey book.data nm _ h)
  · rcases args with _ | ⟨name, _ | ⟨phone, _ | ⟨x, rest⟩⟩⟩
    · simpa [add_contact] using hwf
    · simpa [add_contact] using hwf
    · cases hf : book.find name with
      | some r0 =>
        have hname : r0.name = name := find_WF_name book hwf name r0 hf
        cases hap : r0.add_phone phone with
        | mk r2 e2 =>
          have h2 : r2.name = name := by
            rw [← hname, ← add_phone_fst_name r0 phone, hap]
          cases e2 with
          | ok u =>
            simp only [add_contact, hf, hap]
            exact dictSet_WF book name r2 hwf h2
          | error e =>
            simp only [add_contact, hf, hap]
            exact hwf
      | none =>
        cases hap : (Record.mk name [] none).add_phone phone with
        | mk r2 e2 =>
          have hbase : bookWF (book.add_record (Record.mk name [] none)) :=
            dictSet_WF book name (Record.mk name [] none) hwf rfl
          cases e2 with
          | ok u =>
            simp only [add_contact, hf, hap]
            exact dictSet_WF (book.add_record (Record.mk name [] none)) r2.name r2 hbase rfl
          | error e =>
            simp only [add_contact, hf, hap]
            exact hbase
    · simpa [add_contact] using hwf
  · rcases args with _ | ⟨name, _ | ⟨old_phone, _ | ⟨new_phone, _ | ⟨x, rest⟩⟩⟩⟩
    · simpa [change_contact] using hwf
    · simpa [change_contact] using hwf
    · simpa [change_contact] using hwf
    · cases hf : book.find name with
      | none => simpa [change_contact, hf] using hwf
      | some r0 =>
        have hname : r0.name = name := find_WF_name book hwf name r0 hf
        cases hep : r0.edit_phone old_phone new_phone with
        | mk r2 e2 =>
          have h2 : r2.name = name := by
            rw [← hname, ← edit_phone_fst_name r0 old_phone new_phone, hep]
          cases e2 with
          | ok u =>
            simp only [change_contact, hf, hep]
            exact dictSet_WF book name r2 hwf h2
          | error e =>
            simp only [change_contact, hf, hep]
            exact dictSet_WF book name r2 hwf h2
    · simpa [change_contact] using hwf
  · rcases args with _ | ⟨name, _ | ⟨bday, _ | ⟨x, rest⟩⟩⟩
    · simpa [add_birthday] using hwf
    · simpa [add_birthday] using hwf
    · cases hf : book.find name with
      | none => simpa [add_birthday, hf] using hwf
      | some r0 =>
        have hname : r0.name = name := find_WF_name book hwf name r0 hf
        cases hab : r0.add_birthday bday with
        | mk r2 e2 =>
          have h2 : r2.name = name := by
            rw [← hname, ← add_birthday_fst_name r0 bday, hab]
          cases e2 with
          | ok u =>
            simp only [add_birthday, hf, hab]
            exact dictSet_WF book name r2 hwf h2
          | error e =>
            simp only [add_birthday, hf, hab]
            exact dictSet_WF book name r2 hwf h2
    · simpa [add_birthday] using hwf

/-- Witness for C9 on a concrete store and operations. -/
theorem store_key_name_invariant_witness :
    bookWF ((AddressBook.mk []).add_record (Record.mk "Ann" [] none)) ∧
    bookWF ((AddressBook.mk []).delete "Bob") ∧
    bookWF (add_contact ["Ann", "0123456789"] (AddressBook.mk [])).2 ∧
    bookWF (change_contact ["Ann", "0123456789", "0000000000"] (AddressBook.mk [])).2 ∧
    bookWF (add_birthday ["Ann", "15.06.1990"] (AddressBook.mk [])).2 :=
  store_key_name_invariant (AddressBook.mk []) (Record.mk "Ann" [] none) "Bob"
    ["Ann", "0123456789"]
    (fun k r h => absurd h (List.not_mem_nil _))

/-! ## Claim C3: which birthday strings are accepted -/

/-- The shape asserted by the claim, following its words: zero-padded
two-digit day, dot, zero-padded two-digit month, dot, four-digit year,
denoting a real calendar date. -/
def claimedBirthdayShape (s : String) : Bool :=
  match s.data with
  | [d1, d2, c1, m1, m2, c2, y1, y2, y3, y4] =>
    d1.isDigit && d2.isDigit && c1 == '.' && m1.isDigit && m2.isDigit && c2 == '.' &&
    y1.isDigit && y2.isDigit && y3.isDigit && y4.isDigit &&
    (Date.mk (natOfDigits [y1, y2, y3, y4]) (natOfDigits [m1, m2])
      (natOfDigits [d1, d2])).isValid
  | _ => false

/-- Counterexample to C3 as stated: `"1.1.2024"` is not of the claimed
zero-padded form, yet `Birthday("1.1.2024")` succeeds (Python's
`strptime` also accepts one-digit day and month fields). -/
theorem birthday_accepts_unpadded :
    (Birthday.init "1.1.2024").isOk = true ∧ claimedBirthdayShape "1.1.2024" = false := by
  constructor
  · rfl
  · rfl

/-- The shape actually accepted: one- or two-digit all-digit day and
month fields and an exactly four-digit year field, separated by dots,
whose numeric values form a real calendar date (year at least 1). -/
def lenientBirthdayShape (s : String) : Prop :=
  ∃ ds ms ys : List Char,
    s.data = ds ++ '.' :: (ms ++ '.' :: ys) ∧
    ds ≠ [] ∧ ds.length ≤ 2 ∧ (∀ c ∈ ds, c.isDigit = true) ∧
    ms ≠ [] ∧ ms.length ≤ 2 ∧ (∀ c ∈ ms, c.isDigit = true) ∧
    ys.length = 4 ∧ (∀ c ∈ ys, c.isDigit = true) ∧
    1 ≤ natOfDigits ds ∧ 1 ≤ natOfDigits ms ∧ natOfDigits ms ≤ 12 ∧
    1 ≤ natOfDigits ys ∧
    natOfDigits ds ≤ daysInMonth (natOfDigits ys) (natOfDigits ms)

theorem strptimeDMY_some_iff (s : String) :
    (∃ dt, strptimeDMY s = some dt) ↔ lenientBirthdayShape s := by
  constructor
  · rintro ⟨dt, h⟩
    unfold strptimeDMY at h
    rcases hs : splitDots s.data with _ | ⟨ds, _ | ⟨ms, _ | ⟨ys, _ | ⟨zs, parts⟩⟩⟩⟩ <;>
      rw [hs] at h <;> simp only [] at h
    case cons.cons.cons.nil =>
      split at h
      · split at h
        · rename_i hcond hvalid
          have hjoin := joinDots_splitDots s.data
          rw [hs] at hjoin
          simp only [joinDots, joinTail, List.append_nil] at hjoin
          simp only [Bool.and_eq_true, Bool.not_eq_true', decide_eq_true_eq,
            List.all_eq_true, beq_iff_eq, List.isEmpty_eq_false] at hcond
          obtain ⟨⟨⟨⟨hde, hdl⟩, hda⟩, ⟨⟨hme, hml⟩, hma⟩⟩, hyl, hya⟩ := hcond
          simp only [Date.isValid, Bool.and_eq_true, decide_eq_true_eq] at hvalid
          obtain ⟨⟨⟨⟨⟨hy1, hy2⟩, hm1⟩, hm2⟩, hd1⟩, hd2⟩ := hvalid
          exact ⟨ds, ms, ys, hjoin.symm, hde, hdl, hda, hme, hml, hma, hyl, hya,
            hd1, hm1, hm2, hy1, hd2⟩
        · exact absurd h (by simp)
      · exact absurd h (by simp)
    all_goals exact absurd h (by simp)
  · rintro ⟨ds, ms, ys, hdecomp, hde, hdl, hda, hme, hml, hma, hyl, hya, h1, h2, h3, h4, h5⟩
    have hds : ∀ x ∈ ds, x ≠ '.' := fun x hx => isDigit_ne_dot x (hda x hx)
    have hms : ∀ x ∈ ms, x ≠ '.' := fun x hx => isDigit_ne_dot x (hma x hx)
    have hys : ∀ x ∈ ys, x ≠ '.' := fun x hx => isDigit_ne_dot x (hya x hx)
    have hs : splitDots s.data = [ds, ms, ys] := by
      rw [hdecomp]
      exact splitDots_three ds ms ys hds hms hys
    have hcond : (!ds.isEmpty && decide (ds.length ≤ 2) && ds.all Char.isDigit &&
        (!ms.isEmpty && decide (ms.length ≤ 2) && ms.all Char.isDigit) &&
        (ys.length == 4 && ys.all Char.isDigit)) = true := by
      simp only [Bool.and_eq_true, Bool.not_eq_true', decide_eq_true_eq,
        List.all_eq_true, beq_iff_eq, List.isEmpty_eq_false]
      exact ⟨⟨⟨⟨hde, hdl⟩, hda⟩, ⟨⟨hme, hml⟩, hma⟩⟩, hyl, hya⟩
    have hval : (Date.mk (natOfDigits ys) (natOfDigits ms) (natOfDigits ds)).isValid = true := by
      simp only [Date.isValid, Bool.and_eq_true, decide_eq_true_eq]
      have hylt := natOfDigits_lt ys hya
      rw [hyl] at hylt
      refine ⟨⟨⟨⟨⟨h4, by omega⟩, h2⟩, h3⟩, h1⟩, h5⟩
    refine ⟨⟨natOfDigits ys, natOfDigits ms, natOfDigits ds⟩, ?_⟩
    unfold strptimeDMY
    rw [hs]
    split
    · rename_i dsx msx ysx heq
      simp only [List.cons.injEq, and_true] at heq
      obtain ⟨e1, e2, e3⟩ := heq
      subst e1
      subst e2
      subst e3
      rw [if_pos hcond, if_pos hval]
    · rename_i hne
      exact absurd rfl (hne ds ms ys)

/-- Claim C3 (amended): `Birthday(raw)` succeeds iff `raw` is
day.month.year with one- or two-digit all-digit day and month, an
exactly four-digit year, and numeric values forming a real calendar
date; `"30.02.2024"` and `"29.02.2023"` fail, `"29.02.2024"` succeeds. -/
theorem birthday_init_iff_lenient :
    (∀ raw : String, (Birthday.init raw).isOk = true ↔ lenientBirthdayShape raw) ∧
    (Birthday.init "30.02.2024").isOk = false ∧
    (Birthday.init "29.02.2024").isOk = true ∧
    (Birthday.init "29.02.2023").isOk = false := by
  refine ⟨fun raw => ?_, by rfl, by rfl, by rfl⟩
  rw [← strptimeDMY_some_iff raw]
  unfold Birthday.init
  cases h : strptimeDMY raw with
  | some dt => simp [Except.isOk, Except.toBool, h]
  | none => simp [Except.isOk, Except.toBool, h]

/-- Witness for C3's amended claim at `"29.02.2024"`. -/
theorem birthday_init_iff_lenient_witness : lenientBirthdayShape "29.02.2024" :=
  (birthday_init_iff_lenient.1 "29.02.2024").mp (by rfl)

/-! ## Claim C2: the upcoming-birthday query -/

theorem processRecord_ok_some_iff (today : Date) (r : Record) (n d : String) :
    processRecord today r = .ok (some (n, d)) ↔
      r.name = n ∧ ∃ bv bd occ, r.birthday = some bv ∧ strptimeDMY bv.value = some bd ∧
        occurrence bd today = .ok occ ∧
        (0 ≤ (rataDie occ : Int) - (rataDie today : Int) ∧
         (rataDie occ : Int) - (rataDie today : Int) ≤ 7) ∧
        d = strftimeDMY (weekendAdjust occ) := by
  cases hb : r.birthday with
  | none => simp [processRecord, hb]
  | some bv =>
    cases hp : strptimeDMY bv.value with
    | none => simp [processRecord, hb, hp]
    | some bd =>
      cases ho : occurrence bd today with
      | error e => simp [processRecord, hb, hp, ho]
      | ok occ =>
        by_cases hcnd : (0 ≤ (rataDie occ : Int) - (rataDie today : Int) ∧
            (rataDie occ : Int) - (rataDie today : Int) ≤ 7)
        · have hcnd2 : rataDie today ≤ rataDie occ ∧
              (rataDie occ : Int) ≤ 7 + (rataDie today : Int) := by omega
          simp [processRecord, hb, hp, ho, hcnd2, eq_comm]
        · have hcnd2 : ¬(rataDie today ≤ rataDie occ ∧
              (rataDie occ : Int) ≤ 7 + (rataDie today : Int)) := by omega
          simp [processRecord, hb, hp, ho, hcnd2]

theorem upcomingAux_ok_mem (today : Date) (data : List (String × Record))
    (l : List (String × String)) (h : upcomingAux today data = .ok l) (x : String × String) :
    x ∈ l ↔ ∃ k r, (k, r) ∈ data ∧ processRecord today r = .ok (some x) := by
  induction data generalizing l with
  | nil =>
    simp only [upcomingAux, Except.ok.injEq] at h
    subst h
    simp
  | cons kv rest ih =>
    obtain ⟨k0, r0⟩ := kv
    simp only [upcomingAux] at h
    cases hp : processRecord today r0 with
    | error e => rw [hp] at h; simp at h
    | ok o =>
      rw [hp] at h
      cases o with
      | none =>
        simp only at h
        rw [ih l h]
        constructor
        · rintro ⟨k, r, hm, hpr⟩
          exact ⟨k, r, List.mem_cons_of_mem _ hm, hpr⟩
        · rintro ⟨k, r, hm, hpr⟩
          rcases List.mem_cons.mp hm with h2 | h2
          · have hr0 : r = r0 := (Prod.ext_iff.mp h2).2
            rw [hr0, hp] at hpr
            exact absurd hpr (by simp)
          · exact ⟨k, r, h2, hpr⟩
      | some y =>
        cases hr : upcomingAux today rest with
        | error e => rw [hr] at h; simp at h
        | ok lr =>
          rw [hr] at h
          simp only [Except.ok.injEq] at h
          subst h
          rw [List.mem_cons, ih lr hr]
          constructor
          · rintro (rfl | ⟨k, r, hm, hpr⟩)
            · exact ⟨k0, r0, List.mem_cons_self _ _, hp⟩
            · exact ⟨k, r, List.mem_cons_of_mem _ hm, hpr⟩
          · rintro ⟨k, r, hm, hpr⟩
            rcases List.mem_cons.mp hm with h2 | h2
            · left
              have hr0 : r = r0 := (Prod.ext_iff.mp h2).2
              rw [hr0, hp] at hpr
              simp only [Except.ok.injEq, Option.some.injEq] at hpr
              exact hpr.symm
            · right
              exact ⟨k, r, h2, hpr⟩

theorem upcomingAux_ok_names_sublist (today : Date) (data : List (String × Record))
    (l : List (String × String)) (h : upcomingAux today data = .ok l) :
    List.Sublist (l.map Prod.fst) (data.map (fun kv => kv.2.name)) := by
  induction data generalizing l with
  | nil =>
    simp only [upcomingAux, Except.ok.injEq] at h
    subst h
    simp
  | cons kv rest ih =>
    obtain ⟨k0, r0⟩ := kv
    simp only [upcomingAux] at h
    cases hp : processRecord today r0 with
    | error e => rw [hp] at h; simp at h
    | ok o =>
      rw [hp] at h
      cases o with
      | none =>
        simp only at h
        simp only [List.map_cons]
        exact List.Sublist.cons _ (ih l h)
      | some y =>
        cases hr : upcomingAux today rest with
        | error e => rw [hr] at h; simp at h
        | ok lr =>
          rw [hr] at h
          simp only [Except.ok.injEq] at h
          subst h
          have hy : y.1 = r0.name := by
            obtain ⟨y1, y2⟩ := y
            exact ((processRecord_ok_some_iff today r0 y1 y2).mp hp).1.symm
          simp only [List.map_cons]
          rw [hy]
          exact List.Sublist.cons₂ _ (ih lr hr)

/-- Claim C2: whenever `get_upcoming_birthdays` returns a list, a pair
`(n, d)` is in it iff some record of the store is named `n`, has a
parseable birthday whose this-year occurrence (rolled to next year when
already past `today`) lies within `0 ≤ occurrence - today ≤ 7` days —
the difference taken before any weekend adjustment — and `d` is that
occurrence rendered `DD.MM.YYYY` after rolling a Saturday forward 2 days
and a Sunday 1 day to the next Monday; results follow store insertion
order. -/
theorem get_upcoming_birthdays_spec (book : AddressBook) (today : Date)
    (l : List (String × String)) (h : book.get_upcoming_birthdays today = .ok l) :
    (∀ n d : String, (n, d) ∈ l ↔
      ∃ k r, (k, r) ∈ book.data ∧ r.name = n ∧
        ∃ bv bd occ, r.birthday = some bv ∧ strptimeDMY bv.value = some bd ∧
          occurrence bd today = .ok occ ∧
          (0 ≤ (rataDie occ : Int) - (rataDie today : Int) ∧
           (rataDie occ : Int) - (rataDie today : Int) ≤ 7) ∧
          d = strftimeDMY (weekendAdjust occ)) ∧
    List.Sublist (l.map Prod.fst) (book.data.map (fun kv => kv.2.name)) ∧
    (∀ dt : Date, weekday dt = 5 → weekendAdjust dt = addDays dt 2) ∧
    (∀ dt : Date, weekday dt = 6 → weekendAdjust dt = addDays dt 1) ∧
    (∀ dt : Date, weekday dt < 5 → weekendAdjust dt = dt) := by
  refine ⟨?_, upcomingAux_ok_names_sublist today book.data l h, ?_, ?_, ?_⟩
  · intro n d
    rw [upcomingAux_ok_mem today book.data l h (n, d)]
    constructor
    · rintro ⟨k, r, hm, hpr⟩
      obtain ⟨hn, hrest⟩ := (processRecord_ok_some_iff today r n d).mp hpr
      exact ⟨k, r, hm, hn, hrest⟩
    · rintro ⟨k, r, hm, hn, hrest⟩
      exact ⟨k, r, hm, (processRecord_ok_some_iff today r n d).mpr ⟨hn, hrest⟩⟩
  · intro dt h5
    unfold weekendAdjust
    rw [h5]
    norm_num
  · intro dt h6
    unfold weekendAdjust
    rw [h6]
    norm_num
  · intro dt hlt
    unfold weekendAdjust
    rw [if_neg (by omega)]

/-- Witness for C2 on the spec's example: birthday `15.06.1990`, today
Monday 2024-06-10; the Saturday occurrence 2024-06-15 is reported as
Monday `17.06.2024`. -/
theorem get_upcoming_birthdays_spec_witness :
    ("Alice", "17.06.2024") ∈ ([("Alice", "17.06.2024")] : List (String × String)) :=
  ((get_upcoming_birthdays_spec
      (AddressBook.mk [("Alice", Record.mk "Alice" [] (some ⟨"15.06.1990"⟩))])
      ⟨2024, 6, 10⟩ [("Alice", "17.06.2024")] (by rfl)).1 "Alice" "17.06.2024").mpr
    ⟨"Alice", Record.mk "Alice" [] (some ⟨"15.06.1990"⟩), by simp,
      rfl, ⟨"15.06.1990"⟩, ⟨1990, 6, 15⟩, ⟨2024, 6, 15⟩, rfl, by rfl, by rfl,
      by decide, by rfl⟩
